import Mathlib

/-!
Shallow embedding of the `itty-durable-safe` repository (two source files:
`src/itty-durable.js` and `src/proxy-durable.js`) and proofs about the
claims on its specification.

The embedding translates the JavaScript source into Lean:
  * JS values reachable through the action protocol are the inductive `Value`
    (objects are not needed by any claim except as the opaque value of the
    `env` field, which stays an arbitrary `Value`).
  * A JS object used as a dictionary (the own fields of the durable object
    instance, the key/value store) is an association list with unique keys;
    property write is `setA` (update the existing slot, else append, matching
    JS own-property insertion order), property read is `lookupA`.
  * JS strings are Lean `String` (a list of characters); `String.prototype`
    helpers used by the source (`startsWith`, `slice`, `length`,
    `toLowerCase`) are modelled over the character list.
  * The external deep-serialization codec (`superjson`) is an explicit
    `Codec` record of a `stringify`/`parse` pair; theorems that need the
    round-trip contract take it as a hypothesis on the values involved.
  * The plain JSON round trip used by the reset snapshot
    (`JSON.parse(JSON.stringify(x))`) is modelled by `jsonRoundTripValue` /
    `jsonRoundTripFields`: `Date` values collapse to their ISO string,
    `undefined` members are dropped from objects and become `null` in arrays.
  * The durable store adapter is an association list of string keys to raw
    encoded strings; `storeList` models `storage.list({ prefix, limit })`
    (keys filtered by prefix, ordered lexicographically, truncated to the
    limit).  Every operation additionally returns the list of store
    operations it issued, so that frame claims are statable.
  * Async control flow is made explicit: a promise that can reject is an
    `Except`; a promise returned from inside a `try` block without `await`
    bypasses the `catch` of that block, which the embedding reflects by
    routing such results around the modelled catch.
  * A `set` action targeting the reserved name `state` executes
    `this.state = content`, overwriting the whole internal namespace
    (`initialized`, `defaultState`, `storage`, `router`).  The embedding
    tracks this with `Inst.stateClobbered`: once set, every later
    dereference of `this.state.storage` (context recording, load, persist)
    throws a TypeError, which `fetch` turns into a 400 through its outer
    catch, and `reset` finds `this.state.defaultState` undefined and
    throws in `JSON.parse`.  The explicit store argument of
    `loadFromStorage`, `persist` and `safeAlarm` stands for the
    `this.state.storage` handle of an intact namespace — the runtime only
    reaches these methods with a handle in place; the clobbered paths are
    modelled where the program encounters them, inside `fetch`.
-/

namespace IttyDurable

/-- JS values carried by the action protocol and stored in fields.
`date` is the representative non-plain-JSON value (superjson round-trips
it, plain JSON collapses it to its ISO string); it carries that string. -/
inductive Value where
  | undef
  | null
  | bool (b : Bool)
  | num (n : Int)
  | str (s : String)
  | date (iso : String)
  | arr (xs : List Value)

/-- Association list keyed by strings: the embedding of a JS dictionary
object.  Used both for instance fields (values in `Value`) and for the
durable store (values are raw encoded strings). -/
abbrev AList (α : Type) := List (String × α)

/-- Property read on a JS dictionary object. -/
def lookupA {α : Type} : AList α → String → Option α
  | [], _ => none
  | kv :: rest, k => if kv.1 = k then some kv.2 else lookupA rest k

/-- Property write on a JS dictionary object: overwrite the existing slot,
else append (JS own-property insertion order). -/
def setA {α : Type} : AList α → String → α → AList α
  | [], k, v => [(k, v)]
  | kv :: rest, k, v => if kv.1 = k then (k, v) :: rest else kv :: setA rest k v

/-- `Object.assign(base, upd)`: write every member of `upd` onto `base`,
in order. -/
def assignA {α : Type} (base upd : AList α) : AList α :=
  upd.foldl (fun acc kv => setA acc kv.1 kv.2) base

/-- The keys of a dictionary. -/
def keysA {α : Type} (l : AList α) : List String := l.map Prod.fst

/-- JS `String.prototype.startsWith`, over the character sequence. -/
def jsStartsWith (s p : String) : Bool := List.isPrefixOf p.data s.data

/-- JS `String.prototype.slice(n)` (drop the first `n` character units). -/
def jsSliceFrom (s : String) (n : Nat) : String := ⟨s.data.drop n⟩

/-- JS `String.prototype.length` (character-unit count). -/
def jsLength (s : String) : Nat := s.data.length

/-- JS `String.prototype.toLowerCase` (ASCII case fold suffices here). -/
def jsToLower (s : String) : String := s.toLower

/-- The external deep-serialization codec (`superjson`): a
`stringify`/`parse` pair over transportable strings.  Its round-trip
contract is assumed per value, never globally. -/
structure Codec where
  stringify : Value → String
  parse : String → Value

/-- The codec round-trips a given value. -/
def RoundTrips (c : Codec) (v : Value) : Prop := c.parse (c.stringify v) = v

/-- Effect of `JSON.parse(JSON.stringify -)` on a single value: dates
collapse to their ISO string, `undefined` inside arrays becomes `null`,
everything else JSON-native is preserved. -/
def jsonRoundTripValue : Value → Value
  | .undef => .null
  | .null => .null
  | .bool b => .bool b
  | .num n => .num n
  | .str s => .str s
  | .date iso => .str iso
  | .arr xs => .arr (go xs)
where go : List Value → List Value
  | [] => []
  | v :: vs => jsonRoundTripValue v :: go vs

/-- Effect of `JSON.parse(JSON.stringify -)` on a fields object: members
whose value is `undefined` are dropped, the rest round-trip per value. -/
def jsonRoundTripFields (fs : AList Value) : AList Value :=
  (fs.filter fun kv =>
      match kv.2 with
      | .undef => false
      | _ => true).map fun kv => (kv.1, jsonRoundTripValue kv.2)

/-- Durable store contents: key to raw encoded string. -/
abbrev Store := AList String

/-- Key order used by `storage.list` (lexicographic on character codes,
matching the ordered map the store adapter exposes). -/
def keyLe (a b : String) : Bool :=
  go a.data b.data
where go : List Char → List Char → Bool
  | [], _ => true
  | _ :: _, [] => false
  | x :: xs, y :: ys =>
    if x = y then go xs ys else decide (x.toNat < y.toNat)

/-- Insertion into a key-sorted list. -/
def insertByKey (p : String × String) : List (String × String) → List (String × String)
  | [] => [p]
  | q :: qs => if keyLe p.1 q.1 then p :: q :: qs else q :: insertByKey p qs

/-- Sort store entries by key. -/
def sortByKey : List (String × String) → List (String × String)
  | [] => []
  | p :: ps => insertByKey p (sortByKey ps)

/-- `storage.list({ prefix, limit })` of the store adapter: the entries
whose key starts with the prefix, in key order, truncated to `limit`. -/
def storeList (store : Store) (pfx : String) (limit : Nat) : List (String × String) :=
  (sortByKey (store.filter fun kv => jsStartsWith kv.1 pfx)).take limit

/-- Store operations issued by the runtime, recorded for frame claims. -/
inductive StoreOp where
  | list (pfx : String) (limit : Nat)
  | put (key : String) (val : String)
  | delete (key : String)
  | deleteAll

/-- A thrown JS error: `StatusError` carries a status, a plain `Error`
does not. -/
structure JsErr where
  status : Option Nat
  message : String

/-- Response body payloads produced by the router: a JSON-encoded value,
or the JSON encoding of the persistable-fields object (`json(this.toJSON())`). -/
inductive Body where
  | val (v : Value)
  | fieldsObj (fs : AList Value)

/-- An HTTP response as produced by the itty-router helpers `json`,
`status` and `error`. -/
structure Response where
  status : Nat
  error : Option String
  body : Option Body

/-- `json(v)` of itty-router. -/
def jsonResp (v : Value) : Response := { status := 200, error := none, body := some (.val v) }

/-- `status(204)` of itty-router. -/
def status204 : Response := { status := 204, error := none, body := none }

/-- `error(code, message)` of itty-router. -/
def errorResp (code : Nat) (msg : String) : Response :=
  { status := code, error := some msg, body := none }

/-- The default `onError` option of `createDurable`:
`(err) => error(err.status || 500, err.message)`. -/
def onErrorDefault (e : JsErr) : Response := errorResp (e.status.getD 500) e.message

/-- What a method invocation may produce (`response instanceof Response`
distinguishes a full response from a plain value to be JSON-encoded). -/
inductive CallRet where
  | value (v : Value)
  | response (r : Response)

/-- A subclass method body: reads and mutates the fields, may throw, may
return `undefined` (`none`) or a result.  The mutated fields are returned
even when the method throws, since JS mutations happened on the object. -/
abbrev MethodImpl := AList Value → List Value → (Except JsErr (Option CallRet)) × AList Value

/-- An inbound request, after the externals did their part: the routing
library either matched `GET /do/:action/:target` (yielding the two params)
or did not; the `do-content` header value is carried already JSON-parsed;
`do-name` and `upgrade` are optional raw headers. -/
structure Request where
  route : Option (String × String)
  doContent : Option Value
  doName : Option String
  upgrade : Option String

/-- The internal namespace `this.state`: request-scoped context, the
`initialized` flag and the serialized default-state snapshot.  The
snapshot field holds the fields object passed to `JSON.stringify`; the
stringify-then-parse composition is applied where the source calls
`JSON.parse` (in `reset`).  The store adapter handle is threaded
explicitly through the operations instead of living here. -/
structure InternalState where
  defaultState : Option (AList Value)
  initialized : Bool
  idFromName : Option String
  websocketRequest : Bool
  request : Option Request

/-- An in-memory durable object instance: own fields (all own properties
except the reserved `state` slot), the internal namespace, the callable
methods of the (sub)class, and the optional `fetchFallback` handler.
`fetchFallback` is modelled as async: its failure is a promise
rejection.  `stateClobbered` records whether a `set` action overwrote the
reserved `state` slot with a raw decoded value (`proxied.state =
content`): when it is `some v`, the structured `state` record below is
stale — the program would read the members of `v` instead, finding
`initialized`, `defaultState` and `storage` undefined. -/
structure Inst where
  fields : AList Value
  state : InternalState
  methods : AList MethodImpl
  fetchFallback : Option (Unit → Except JsErr Response)
  stateClobbered : Option Value

/-- The runtime-wide options closed over by `createDurable` (with the
default `onError`, which the claims are about, fixed). -/
structure Options where
  autoPersist : Bool
  autoReturn : Bool
  pfx : String

/-- The `IttyDurable` constructor: sets the own fields `env` and
`classInstance`, initializes the internal namespace (`initialized` false,
no snapshot).  `extra` holds the own fields a subclass constructor sets
after `super(...)`; `ms` and `fb` are the methods and optional fallback
the subclass provides.  The embedding of bindings into `this.state` only
touches the internal namespace and is claim-irrelevant. -/
def construct (envVal : Value) (extra : AList Value) (ms : AList MethodImpl)
    (fb : Option (Unit → Except JsErr Response)) : Inst :=
  { fields := assignA [("env", envVal), ("classInstance", .null)] extra
    state :=
      { defaultState := none
        initialized := false
        idFromName := none
        websocketRequest := false
        request := none }
    methods := ms
    fetchFallback := fb
    stateClobbered := none }

/-- `getPersistable()`: every own field except the reserved `state` slot
(`const { state, ...persistable } = this`). -/
def getPersistable (i : Inst) : AList Value :=
  i.fields.filter fun kv => kv.1 != "state"

/-- `toJSON()`: all own content but the `state` slot. -/
def toJSON (i : Inst) : AList Value :=
  i.fields.filter fun kv => kv.1 != "state"

/-- `optionallyReturnThis()`: with `autoReturn` enabled, the JSON encoding
of `this.toJSON()`; otherwise no response (fall through). -/
def optionallyReturnThis (autoReturn : Bool) (i : Inst) : Option Response :=
  if autoReturn then
    some { status := 200, error := none, body := some (.fieldsObj (toJSON i)) }
  else none

/-- The write set of `persist()`: for every persistable field whose name
does not start with the `$` sentinel, one entry `prefix ++ name` with the
codec-encoded value, in field order. -/
def persistWrites (c : Codec) (pfx : String) : AList Value → List (String × String)
  | [] => []
  | kv :: rest =>
    if jsStartsWith kv.1 "$" then persistWrites c pfx rest
    else (pfx ++ kv.1, c.stringify kv.2) :: persistWrites c pfx rest

/-- `persist()`: issue a `storage.put` for each entry of the write set
(the puts are fired together; with distinct keys their order is
immaterial and they are applied here in field order).  Returns the new
store and the issued operations; the instance itself is untouched. -/
def persist (c : Codec) (pfx : String) (i : Inst) (store : Store) :
    Store × List StoreOp :=
  let ws := persistWrites c pfx (getPersistable i)
  (ws.foldl (fun st kv => setA st kv.1 kv.2) store, ws.map fun kv => .put kv.1 kv.2)

/-- `loadFromStorage()`: a no-op on an initialized instance; otherwise
list the stored entries under the prefix (page limit 100), decode each via
the codec, strip the prefix from the key, assign the result onto the
instance fields, and mark the instance initialized.  (The base-class
`onLoad` hook, invoked between the assignment and the flag, is a no-op.) -/
def loadFromStorage (c : Codec) (pfx : String) (i : Inst) (store : Store) :
    Inst × List StoreOp :=
  if i.state.initialized then (i, [])
  else
    let stored := storeList store pfx 100
    let stateObj := stored.map fun kv =>
      (if jsStartsWith kv.1 pfx then jsSliceFrom kv.1 (jsLength pfx) else kv.1, c.parse kv.2)
    ({ i with
        fields := assignA i.fields stateObj
        state := { i.state with initialized := true } },
     [.list pfx 100])

/-- `reset()`: delete every persistable own field, then assign
`JSON.parse(this.state.defaultState)` onto the instance.  Throws when no
request was ever handled, and likewise when the namespace was overwritten
by a `set` on `state` — in both cases `this.state.defaultState` is
undefined (no value of the modelled content domain carries that member)
and `JSON.parse(undefined)` throws.  No store operation is issued. -/
def reset (i : Inst) (store : Store) :
    (Except JsErr Inst) × Store × List StoreOp :=
  match i.stateClobbered with
  | some _ =>
    (.error { status := none, message := "Unexpected token u in JSON at position 0" }, store, [])
  | none =>
    match i.state.defaultState with
    | none => (.error { status := none, message := "Unexpected token u in JSON at position 0" }, store, [])
    | some snap =>
      let pers := getPersistable i
      let remaining := i.fields.filter fun kv => !(pers.any fun p => p.1 == kv.1)
      (.ok { i with fields := assignA remaining (jsonRoundTripFields snap) }, store, [])

/-- The single route handler registered on `GET /do/:action/:target`:
dispatch on the action, producing either a thrown error (fed to the
router-level `.catch(onError)`) or an optional response, plus the mutated
instance.  The spread `...content` of a non-iterable argument list throws
a `TypeError` before the method body runs.  A `set` whose target is the
reserved name `state` executes `this.state = content`, overwriting the
internal namespace rather than a business field. -/
def runHandler (i : Inst) (action target : String) (content : Value) :
    (Except JsErr (Option Response)) × Inst :=
  if action = "call" then
    match lookupA i.methods target with
    | none =>
      (.error { status := some 500
                message := "Durable Object does not contain method " ++ target ++ "()" }, i)
    | some m =>
      match content with
      | .arr args =>
        match m i.fields args with
        | (.error e, fs) => (.error e, { i with fields := fs })
        | (.ok none, fs) => (.ok none, { i with fields := fs })
        | (.ok (some (.value v)), fs) => (.ok (some (jsonResp v)), { i with fields := fs })
        | (.ok (some (.response r)), fs) => (.ok (some r), { i with fields := fs })
      | _ => (.error { status := none, message := "content is not iterable" }, i)
  else if action = "set" then
    if target = "state" then
      (.ok none, { i with stateClobbered := some content })
    else
      (.ok none, { i with fields := setA i.fields target content })
  else if action = "get-prop" then
    (.ok (some (jsonResp ((lookupA i.fields target).getD .undef))), i)
  else (.ok none, i)

/-- `this.state.router.handle(request).catch(onError)`: when the route
matched, run the handler chain (action handler, then
`optionallyReturnThis`, then `() => status(204)`), translating a thrown
error through the default `onError`; when no route matched the router
resolves to no response. -/
def dispatchRoute (autoReturn : Bool) (i : Inst) (route : Option (String × String))
    (content : Value) : Option Response × Inst :=
  match route with
  | none => (none, i)
  | some at2 =>
    match runHandler i at2.1 at2.2 content with
    | (.error e, j) => (some (onErrorDefault e), j)
    | (.ok (some r), j) => (some r, j)
    | (.ok none, j) =>
      match optionallyReturnThis autoReturn j with
      | some r => (some r, j)
      | none => (some status204, j)

/-- The outcome of one `fetch(request)` call: the settled promise (a
rejection only escapes through the un-awaited fallback return), the
instance and store afterwards, the issued store operations, and whether
the fallback path was taken. -/
structure FetchOut where
  result : Except JsErr Response
  inst : Inst
  store : Store
  ops : List StoreOp
  usedFallback : Bool

/-- Steps 1 and 2 of the request lifecycle wrapper: record the transport
context (websocket upgrade flag, raw request, caller-supplied lookup
name), and on a not-yet-initialized instance snapshot the current
persistable fields as the default-state snapshot. -/
def contextState (i : Inst) (req : Request) : InternalState :=
  let s1 :=
    { i.state with
        websocketRequest := (match req.upgrade with
          | some u => jsToLower u = "websocket"
          | none => false)
        request := some req
        idFromName := match req.doName with
          | some n => some n
          | none => i.state.idFromName }
  if !s1.initialized then { s1 with defaultState := some (getPersistable i) } else s1

/-- Steps 3 and 4 of the request lifecycle wrapper: the instance after
context recording and loading, together with the router outcome. -/
def fetchDispatch (cfg : Options) (c : Codec) (i : Inst) (store : Store) (req : Request) :
    Option Response × Inst :=
  dispatchRoute cfg.autoReturn
    (loadFromStorage c cfg.pfx { i with state := contextState i req } store).1
    req.route (req.doContent.getD (.arr []))

/-- Steps 5 to 8 of the request lifecycle wrapper: return the fallback
result raw when the router produced nothing and a fallback exists
(skipping the auto-persist step, and bypassing the outer catch because
that promise is returned without `await`); otherwise auto-persist when
enabled and return the response, or, with no response at all, the thrown
`Bad request` error caught by the outer catch as a 400.  When the request
just overwrote the reserved `state` namespace, the auto-persist call
dereferences `this.state.storage` on the raw content, throws a TypeError
before issuing any write, and the outer catch turns that into a 400. -/
def finishFetch (cfg : Options) (c : Codec) (store : Store) (loadOps : List StoreOp)
    (routed : Option Response × Inst) : FetchOut :=
  match routed.1, routed.2.fetchFallback with
  | none, some fb =>
    { result := fb ()
      inst := routed.2
      store := store
      ops := loadOps
      usedFallback := true }
  | respOpt, _ =>
    match routed.2.stateClobbered, cfg.autoPersist with
    | some _, true =>
      { result := .ok (errorResp 400 "TypeError")
        inst := routed.2
        store := store
        ops := loadOps
        usedFallback := false }
    | _, _ =>
      let persisted := if cfg.autoPersist then persist c cfg.pfx routed.2 store else (store, [])
      match respOpt with
      | some r =>
        { result := .ok r
          inst := routed.2
          store := persisted.1
          ops := loadOps ++ persisted.2
          usedFallback := false }
      | none =>
        { result := .ok (errorResp 400 "Bad request to durable object")
          inst := routed.2
          store := persisted.1
          ops := loadOps ++ persisted.2
          usedFallback := false }

/-- The request lifecycle wrapper `fetch(request)`: record the transport
context, snapshot the default state on a first request, load, dispatch to
the router with errors translated by `onError`, then finish (fallback /
auto-persist / respond / outer catch) as described at `finishFetch`.
On an instance whose namespace a previous request overwrote, recording
the context or loading dereferences members of the raw content instead of
the namespace and throws a TypeError before any store operation or
routing; the outer catch returns the 400 and the instance is left as it
was. -/
def fetch (cfg : Options) (c : Codec) (i : Inst) (store : Store) (req : Request) :
    FetchOut :=
  match i.stateClobbered with
  | some _ =>
    { result := .ok (errorResp 400 "TypeError")
      inst := i
      store := store
      ops := []
      usedFallback := false }
  | none =>
    finishFetch cfg c store
      (loadFromStorage c cfg.pfx { i with state := contextState i req } store).2
      (fetchDispatch cfg c i store req)

/-- Reading `this.state.initialized` on an instance: the flag on an
intact namespace; on an overwritten namespace the JS read yields
`undefined`, which is not `true` (represented as `false`). -/
def readInitialized (i : Inst) : Bool :=
  match i.stateClobbered with
  | some _ => false
  | none => i.state.initialized

/-- Reading `this.state.defaultState` on an instance: the snapshot on an
intact namespace; `undefined` (no snapshot) once the namespace was
overwritten. -/
def readDefaultState (i : Inst) : Option (AList Value) :=
  match i.stateClobbered with
  | some _ => none
  | none => i.state.defaultState

/-- The outcome of one `safeAlarm(cb)` call: what the caller observes
(`result`), what the `catch` logged, the rejection of the un-awaited
transaction promise (an unhandled rejection, invisible to both the caller
and the catch), and the instance and store afterwards. -/
structure AlarmOut where
  result : Except JsErr Unit
  logged : List JsErr
  unhandled : Option JsErr
  inst : Inst
  store : Store

/-- `safeAlarm(cb)`: run `storage.transaction` with a body that reloads
from the transactional view, runs the callback, and persists when
`autoPersist` is on.  The transaction promise is not awaited, so the
enclosing try/catch never observes a rejection: a body failure rolls the
transaction back and surfaces as an unhandled rejection, while the caller
always gets a normal return.  The callback is modelled as a field mutator
that may throw. -/
def safeAlarm (cfg : Options) (c : Codec)
    (cb : Option (AList Value → (Except JsErr Unit) × AList Value))
    (i : Inst) (store : Store) : AlarmOut :=
  let loaded := loadFromStorage c cfg.pfx i store
  let i1 := loaded.1
  match cb with
  | some f =>
    match f i1.fields with
    | (.error e, fs) =>
      { result := .ok ()
        logged := []
        unhandled := some e
        inst := { i1 with fields := fs }
        store := store }
    | (.ok _, fs) =>
      let i2 : Inst := { i1 with fields := fs }
      let persisted := if cfg.autoPersist then persist c cfg.pfx i2 store else (store, [])
      { result := .ok ()
        logged := []
        unhandled := none
        inst := i2
        store := persisted.1 }
  | none =>
    let persisted := if cfg.autoPersist then persist c cfg.pfx i1 store else (store, [])
    { result := .ok ()
      logged := []
      unhandled := none
      inst := i1
      store := persisted.1 }

/-! Association-list lemmas. -/

theorem keysA_cons {α : Type} (kv : String × α) (l : AList α) :
    keysA (kv :: l) = kv.1 :: keysA l := rfl

theorem keysA_append {α : Type} (l1 l2 : AList α) :
    keysA (l1 ++ l2) = keysA l1 ++ keysA l2 := by
  simp [keysA]

theorem lookupA_setA {α : Type} (l : AList α) (k : String) (v : α) (q : String) :
    lookupA (setA l k v) q = if k = q then some v else lookupA l q := by
  induction l with
  | nil =>
    by_cases h : k = q <;> simp [setA, lookupA, h]
  | cons kv rest ih =>
    by_cases hk : kv.1 = k
    · have hset : setA (kv :: rest) k v = (k, v) :: rest := by simp [setA, hk]
      rw [hset]
      by_cases hq : k = q
      · simp [lookupA, hq]
      · have hkvq : ¬ kv.1 = q := by rw [hk]; exact hq
        simp [lookupA, hq, hkvq]
    · have hset : setA (kv :: rest) k v = kv :: setA rest k v := by simp [setA, hk]
      rw [hset]
      by_cases hq : kv.1 = q
      · have hkq : ¬ k = q := by intro h; rw [← h] at hq; exact hk hq
        simp [lookupA, hq, hkq]
      · simp [lookupA, hq, ih]

theorem lookupA_eq_none_iff {α : Type} (l : AList α) (k : String) :
    lookupA l k = none ↔ k ∉ keysA l := by
  induction l with
  | nil => simp [lookupA, keysA]
  | cons kv rest ih =>
    rw [keysA_cons]
    by_cases h : kv.1 = k
    · simp [lookupA, h]
    · have hne : ¬ k = kv.1 := fun hq => h hq.symm
      simp [lookupA, h, ih, hne]

theorem lookupA_assignA {α : Type} (base upd : AList α) (k : String)
    (h : (keysA upd).Nodup) :
    lookupA (assignA base upd) k =
      match lookupA upd k with
      | some v => some v
      | none => lookupA base k := by
  induction upd generalizing base with
  | nil => simp [assignA, lookupA]
  | cons kv rest ih =>
    rw [keysA_cons, List.nodup_cons] at h
    have hstep : assignA base (kv :: rest) = assignA (setA base kv.1 kv.2) rest := rfl
    rw [hstep, ih _ h.2]
    by_cases hk : kv.1 = k
    · have hnone : lookupA rest k = none := by
        rw [lookupA_eq_none_iff, ← hk]
        exact h.1
      simp [lookupA, hk, hnone, lookupA_setA]
    · simp [lookupA, hk, lookupA_setA]

theorem setA_eq_append {α : Type} (l : AList α) (k : String) (v : α)
    (h : k ∉ keysA l) : setA l k v = l ++ [(k, v)] := by
  induction l with
  | nil => rfl
  | cons kv rest ih =>
    rw [keysA_cons] at h
    have h1 : ¬ kv.1 = k := by
      intro hq
      exact h (by rw [hq]; exact List.mem_cons_self _ _)
    have h2 : k ∉ keysA rest := fun hq => h (List.mem_cons_of_mem _ hq)
    simp [setA, h1, ih h2]

theorem lookupA_append {α : Type} (l1 l2 : AList α) (k : String) :
    lookupA (l1 ++ l2) k =
      match lookupA l1 k with
      | some v => some v
      | none => lookupA l2 k := by
  induction l1 with
  | nil => simp [lookupA]
  | cons kv rest ih =>
    by_cases h : kv.1 = k <;> simp [lookupA, h, ih]

theorem foldl_setA_fresh {α : Type} (ws store : AList α)
    (h1 : ∀ kv ∈ ws, kv.1 ∉ keysA store)
    (h2 : (keysA ws).Nodup) :
    ws.foldl (fun st kv => setA st kv.1 kv.2) store = store ++ ws := by
  induction ws generalizing store with
  | nil => simp
  | cons kv rest ih =>
    rw [keysA_cons, List.nodup_cons] at h2
    have hfresh : kv.1 ∉ keysA store := h1 kv (List.mem_cons_self kv rest)
    have hstep : setA store kv.1 kv.2 = store ++ [(kv.1, kv.2)] :=
      setA_eq_append store kv.1 kv.2 hfresh
    have hfresh2 : ∀ q ∈ rest, q.1 ∉ keysA (store ++ [(kv.1, kv.2)]) := by
      intro q hq
      rw [keysA_append]
      intro hmem
      rcases List.mem_append.mp hmem with hm | hm
      · exact h1 q (List.mem_cons_of_mem kv hq) hm
      · have heq : q.1 = kv.1 := List.mem_singleton.mp hm
        exact h2.1 (by rw [← heq]; exact List.mem_map_of_mem Prod.fst hq)
    have hfold : (kv :: rest).foldl (fun st q => setA st q.1 q.2) store
        = rest.foldl (fun st q => setA st q.1 q.2) (setA store kv.1 kv.2) := rfl
    rw [hfold, hstep, ih _ hfresh2 h2.2, List.append_assoc]
    rfl

theorem Perm.lookupA_eq {α : Type} {l1 l2 : AList α} (h : l1.Perm l2)
    (nd : (keysA l1).Nodup) (k : String) : lookupA l1 k = lookupA l2 k := by
  induction h with
  | nil => rfl
  | cons x hp ih =>
    rw [keysA_cons, List.nodup_cons] at nd
    by_cases hx : x.1 = k
    · simp [lookupA, hx]
    · simp [lookupA, hx, ih nd.2]
  | swap x y l =>
    rw [keysA_cons, keysA_cons, List.nodup_cons, List.nodup_cons] at nd
    have hxy : y.1 ≠ x.1 := by
      intro hq
      exact nd.1 (by rw [hq]; exact List.mem_cons_self _ _)
    by_cases h1 : y.1 = k
    · have h2 : ¬ x.1 = k := fun hq => hxy (h1.trans hq.symm)
      simp [lookupA, h1, h2]
    · by_cases h2 : x.1 = k <;> simp [lookupA, h1, h2]
  | trans hp1 hp2 ih1 ih2 =>
    exact (ih1 nd).trans (ih2 (((hp1.map Prod.fst).nodup_iff).mp nd))

theorem insertByKey_perm (p : String × String) (l : List (String × String)) :
    (insertByKey p l).Perm (p :: l) := by
  induction l with
  | nil => exact List.Perm.refl _
  | cons q qs ih =>
    by_cases h : keyLe p.1 q.1 = true
    · have hstep : insertByKey p (q :: qs) = p :: q :: qs := by
        simp [insertByKey, h]
      rw [hstep]
    · have hstep : insertByKey p (q :: qs) = q :: insertByKey p qs := by
        simp [insertByKey, h]
      rw [hstep]
      exact ((List.perm_cons q).mpr ih).trans (List.Perm.swap p q qs)

theorem sortByKey_perm (l : List (String × String)) : (sortByKey l).Perm l := by
  induction l with
  | nil => exact List.Perm.refl _
  | cons p ps ih =>
    exact (insertByKey_perm p (sortByKey ps)).trans ((List.perm_cons p).mpr ih)

/-! String lemmas for prefixed keys. -/

theorem strData_append (a b : String) : (a ++ b).data = a.data ++ b.data := by
  cases a
  cases b
  rfl

theorem jsStartsWith_append (p s : String) : jsStartsWith (p ++ s) p = true := by
  cases p with
  | mk pd =>
    cases s with
    | mk sd =>
      show List.isPrefixOf pd (pd ++ sd) = true
      exact List.isPrefixOf_iff_prefix.mpr (List.prefix_append pd sd)

theorem jsSliceFrom_append (p s : String) : jsSliceFrom (p ++ s) (jsLength p) = s := by
  cases p with
  | mk pd =>
    cases s with
    | mk sd =>
      show String.mk ((pd ++ sd).drop pd.length) = ⟨sd⟩
      rw [List.drop_left]

theorem strAppend_left_cancel {p a b : String} (h : p ++ a = p ++ b) : a = b := by
  cases p with
  | mk pd =>
    cases a with
    | mk ad =>
      cases b with
      | mk bd =>
        have hd : pd ++ ad = pd ++ bd := by
          have h2 := congrArg String.data h
          rw [strData_append, strData_append] at h2
          exact h2
        exact congrArg String.mk (List.append_cancel_left hd)

theorem ne_append_of_not_startsWith {key p s : String}
    (h : jsStartsWith key p = false) : key ≠ p ++ s := by
  intro hk
  rw [hk, jsStartsWith_append] at h
  cases h

/-! Algebraic descriptions of the operations. -/

theorem persistWrites_eq (c : Codec) (pfx : String) (fs : AList Value) :
    persistWrites c pfx fs =
      (fs.filter fun kv => !(jsStartsWith kv.1 "$")).map
        fun kv => (pfx ++ kv.1, c.stringify kv.2) := by
  induction fs with
  | nil => simp [persistWrites]
  | cons kv rest ih =>
    by_cases h : jsStartsWith kv.1 "$" = true
    · simp [persistWrites, h, ih]
    · have h2 : jsStartsWith kv.1 "$" = false := by
        cases hb : jsStartsWith kv.1 "$"
        · rfl
        · exact absurd hb h
      simp [persistWrites, h2, ih]

theorem getPersistable_eq_self {i : Inst}
    (h : ∀ kv ∈ i.fields, kv.1 ≠ "state") : getPersistable i = i.fields := by
  refine List.filter_eq_self.mpr ?_
  intro kv hkv
  simpa using h kv hkv

theorem lookupA_filter_ne {α : Type} (l : AList α) (s k : String) :
    lookupA (l.filter fun kv => kv.1 != s) k =
      if k = s then none else lookupA l k := by
  induction l with
  | nil => by_cases h : k = s <;> simp [lookupA, h]
  | cons kv rest ih =>
    by_cases hs : kv.1 = s
    · have hdrop : (kv.1 != s) = false := by simp [hs]
      rw [List.filter_cons, hdrop]
      simp only [Bool.false_eq_true, if_false]
      rw [ih]
      by_cases hk : k = s
      · simp [hk]
      · have hkv : ¬ kv.1 = k := by rw [hs]; intro hq; exact hk hq.symm
        simp [lookupA, hkv, hk]
    · have hkeep : (kv.1 != s) = true := by simp [hs]
      rw [List.filter_cons, hkeep]
      simp only [if_true]
      by_cases hk : kv.1 = k
      · have hks : ¬ k = s := by rw [← hk]; exact hs
        simp [lookupA, hk, hks]
      · simp [lookupA, hk, ih]

theorem loadFromStorage_methods (c : Codec) (pfx : String) (i : Inst) (store : Store) :
    (loadFromStorage c pfx i store).1.methods = i.methods := by
  by_cases h : i.state.initialized <;> simp [loadFromStorage, h]

theorem loadFromStorage_fetchFallback (c : Codec) (pfx : String) (i : Inst) (store : Store) :
    (loadFromStorage c pfx i store).1.fetchFallback = i.fetchFallback := by
  by_cases h : i.state.initialized <;> simp [loadFromStorage, h]

theorem loadFromStorage_initialized (c : Codec) (pfx : String) (i : Inst) (store : Store) :
    (loadFromStorage c pfx i store).1.state.initialized = true := by
  by_cases h : i.state.initialized <;> simp [loadFromStorage, h]

theorem runHandler_state (i : Inst) (a t : String) (v : Value) :
    ((runHandler i a t v).2).state = i.state := by
  unfold runHandler
  by_cases ha : a = "call"
  · simp only [ha, if_pos rfl]
    cases lookupA i.methods t with
    | none => rfl
    | some m =>
      cases v with
      | arr args =>
        rcases hm : m i.fields args with ⟨res, fs⟩
        cases res with
        | error e => simp [hm]
        | ok o =>
          cases o with
          | none => simp [hm]
          | some cr => cases cr <;> simp [hm]
      | undef => rfl
      | null => rfl
      | bool b => rfl
      | num n => rfl
      | str s => rfl
      | date iso => rfl
  · by_cases hs : a = "set"
    · by_cases ht : t = "state" <;> simp [ha, hs, ht]
    · by_cases hg : a = "get-prop" <;> simp [ha, hs, hg]

theorem runHandler_fetchFallback (i : Inst) (a t : String) (v : Value) :
    ((runHandler i a t v).2).fetchFallback = i.fetchFallback := by
  unfold runHandler
  by_cases ha : a = "call"
  · simp only [ha, if_pos rfl]
    cases lookupA i.methods t with
    | none => rfl
    | some m =>
      cases v with
      | arr args =>
        rcases hm : m i.fields args with ⟨res, fs⟩
        cases res with
        | error e => simp [hm]
        | ok o =>
          cases o with
          | none => simp [hm]
          | some cr => cases cr <;> simp [hm]
      | undef => rfl
      | null => rfl
      | bool b => rfl
      | num n => rfl
      | str s => rfl
      | date iso => rfl
  · by_cases hs : a = "set"
    · by_cases ht : t = "state" <;> simp [ha, hs, ht]
    · by_cases hg : a = "get-prop" <;> simp [ha, hs, hg]

theorem dispatchRoute_state (b : Bool) (i : Inst) (ro : Option (String × String)) (v : Value) :
    ((dispatchRoute b i ro v).2).state = i.state := by
  cases ro with
  | none => rfl
  | some at2 =>
    unfold dispatchRoute
    rcases hr : runHandler i at2.1 at2.2 v with ⟨res, j⟩
    have hj : j.state = i.state := by
      have hrs := runHandler_state i at2.1 at2.2 v
      rw [hr] at hrs
      exact hrs
    cases res with
    | error e => simpa [hr] using hj
    | ok o =>
      cases o with
      | some r => simpa [hr] using hj
      | none =>
        cases hop : optionallyReturnThis b j with
        | some r => simpa [hr, hop] using hj
        | none => simpa [hr, hop] using hj

theorem dispatchRoute_fetchFallback (b : Bool) (i : Inst) (ro : Option (String × String))
    (v : Value) : ((dispatchRoute b i ro v).2).fetchFallback = i.fetchFallback := by
  cases ro with
  | none => rfl
  | some at2 =>
    unfold dispatchRoute
    rcases hr : runHandler i at2.1 at2.2 v with ⟨res, j⟩
    have hj : j.fetchFallback = i.fetchFallback := by
      have hrf := runHandler_fetchFallback i at2.1 at2.2 v
      rw [hr] at hrf
      exact hrf
    cases res with
    | error e => simpa [hr] using hj
    | ok o =>
      cases o with
      | some r => simpa [hr] using hj
      | none =>
        cases hop : optionallyReturnThis b j with
        | some r => simpa [hr, hop] using hj
        | none => simpa [hr, hop] using hj

/-! Client-side transparent proxy (`src/proxy-durable.js`). -/

/-- An outbound action request as built by `buildRequest`:
`GET https://itty-durable/do/{type}/{prop}` with the `do-content` and
`do-name` headers. -/
structure ProxyReq where
  action : String
  target : String
  doContent : Option String
  doName : Option String

/-- `buildRequest(type, prop, content)` of the proxy; the content header
carries `JSON.stringify(content)`, absent when the content is undefined. -/
def buildRequest (doName : Option String) (ty target : String)
    (content : Option String) : ProxyReq :=
  { action := ty, target := target, doContent := content, doName := doName }

/-- What the `get` trap of the proxy hands back for a property read:
either a callable stub (a method wrapper that issues a `call` request once
invoked) or an immediately issued `get-prop` request. -/
inductive TrapGet where
  | callable (target : String)
  | issued (r : ProxyReq)

/-- `isValidMethod`: every property name except the reserved transport
name `fetch`, and, when a local shape class is supplied, only its
function-valued members (the shape is modelled by its membership
predicate). -/
def isValidMethod (mock : Option (String → Bool)) (p : String) : Bool :=
  p != "fetch" && (match mock with
    | none => true
    | some isFn => isFn p)

/-- The `get` trap of the proxy handle. -/
def proxyGet (mock : Option (String → Bool)) (doName : Option String) (p : String) :
    TrapGet :=
  if isValidMethod mock p then .callable p
  else .issued (buildRequest doName "get-prop" p none)

/-- Invoking a callable stub obtained from the `get` trap issues a `call`
request carrying the JSON-encoded argument list. -/
def invokeCallable (doName : Option String) (p : String) (argsJson : String) : ProxyReq :=
  buildRequest doName "call" p (some argsJson)

/-- The `set` trap of the proxy handle issues a `set` request. -/
def proxySet (doName : Option String) (p : String) (valueJson : String) : ProxyReq :=
  buildRequest doName "set" p (some valueJson)

/-! Lemmas about the lifecycle wrapper. -/

theorem contextState_initialized (i : Inst) (req : Request) :
    (contextState i req).initialized = i.state.initialized := by
  by_cases h : i.state.initialized <;> simp [contextState, h]

theorem finishFetch_some_intact (cfg : Options) (c : Codec) (store : Store)
    (loadOps : List StoreOp) (r : Response) (j : Inst)
    (hclob : j.stateClobbered = none) :
    finishFetch cfg c store loadOps (some r, j) =
      { result := .ok r
        inst := j
        store := (if cfg.autoPersist then persist c cfg.pfx j store else (store, [])).1
        ops := loadOps ++ (if cfg.autoPersist then persist c cfg.pfx j store else (store, [])).2
        usedFallback := false } := by
  cases hf : j.fetchFallback <;> simp [finishFetch, hf, hclob]

theorem finishFetch_some_clobbered (cfg : Options) (c : Codec) (store : Store)
    (loadOps : List StoreOp) (r : Response) (j : Inst) (v : Value)
    (hclob : j.stateClobbered = some v) (hap : cfg.autoPersist = true) :
    finishFetch cfg c store loadOps (some r, j) =
      { result := .ok (errorResp 400 "TypeError")
        inst := j
        store := store
        ops := loadOps
        usedFallback := false } := by
  cases hf : j.fetchFallback <;> simp [finishFetch, hf, hclob, hap]

theorem finishFetch_some_result (cfg : Options) (c : Codec) (store : Store)
    (loadOps : List StoreOp) (r : Response) (j : Inst) :
    ∃ r2, (finishFetch cfg c store loadOps (some r, j)).result = .ok r2 := by
  cases hclob : j.stateClobbered with
  | none => exact ⟨r, by rw [finishFetch_some_intact cfg c store loadOps r j hclob]⟩
  | some v =>
    cases hap : cfg.autoPersist with
    | true =>
      exact ⟨errorResp 400 "TypeError",
        by rw [finishFetch_some_clobbered cfg c store loadOps r j v hclob hap]⟩
    | false =>
      refine ⟨r, ?_⟩
      cases hf : j.fetchFallback <;> simp [finishFetch, hf, hclob, hap]

theorem finishFetch_none_fb (cfg : Options) (c : Codec) (store : Store)
    (loadOps : List StoreOp) (j : Inst) (fb : Unit → Except JsErr Response)
    (hf : j.fetchFallback = some fb) :
    finishFetch cfg c store loadOps (none, j) =
      { result := fb ()
        inst := j
        store := store
        ops := loadOps
        usedFallback := true } := by
  simp [finishFetch, hf]

theorem finishFetch_none_nofb_intact (cfg : Options) (c : Codec) (store : Store)
    (loadOps : List StoreOp) (j : Inst) (hf : j.fetchFallback = none)
    (hclob : j.stateClobbered = none) :
    finishFetch cfg c store loadOps (none, j) =
      { result := .ok (errorResp 400 "Bad request to durable object")
        inst := j
        store := (if cfg.autoPersist then persist c cfg.pfx j store else (store, [])).1
        ops := loadOps ++ (if cfg.autoPersist then persist c cfg.pfx j store else (store, [])).2
        usedFallback := false } := by
  simp [finishFetch, hf, hclob]

theorem finishFetch_none_nofb_result (cfg : Options) (c : Codec) (store : Store)
    (loadOps : List StoreOp) (j : Inst) (hf : j.fetchFallback = none) :
    ∃ r2, (finishFetch cfg c store loadOps (none, j)).result = .ok r2 := by
  cases hclob : j.stateClobbered with
  | none => exact ⟨_, by rw [finishFetch_none_nofb_intact cfg c store loadOps j hf hclob]⟩
  | some v =>
    cases hap : cfg.autoPersist with
    | true => exact ⟨errorResp 400 "TypeError", by simp [finishFetch, hf, hclob, hap]⟩
    | false =>
      exact ⟨errorResp 400 "Bad request to durable object",
        by simp [finishFetch, hf, hclob, hap]⟩

theorem finishFetch_inst (cfg : Options) (c : Codec) (store : Store)
    (loadOps : List StoreOp) (routed : Option Response × Inst) :
    (finishFetch cfg c store loadOps routed).inst = routed.2 := by
  rcases routed with ⟨ro, j⟩
  cases ro with
  | none =>
    cases hf : j.fetchFallback with
    | none =>
      cases hclob : j.stateClobbered with
      | none => simp [finishFetch, hf, hclob]
      | some v => cases hap : cfg.autoPersist <;> simp [finishFetch, hf, hclob, hap]
    | some fb => simp [finishFetch, hf]
  | some r =>
    cases hclob : j.stateClobbered with
    | none => rw [finishFetch_some_intact cfg c store loadOps r j hclob]
    | some v =>
      cases hap : cfg.autoPersist with
      | true => rw [finishFetch_some_clobbered cfg c store loadOps r j v hclob hap]
      | false => cases hf : j.fetchFallback <;> simp [finishFetch, hf, hclob, hap]

theorem loadFromStorage_stateClobbered (c : Codec) (pfx : String) (i : Inst) (store : Store) :
    (loadFromStorage c pfx i store).1.stateClobbered = i.stateClobbered := by
  by_cases h : i.state.initialized <;> simp [loadFromStorage, h]

theorem runHandler_stateClobbered (i : Inst) (a t : String) (v : Value)
    (h : ¬(a = "set" ∧ t = "state")) :
    ((runHandler i a t v).2).stateClobbered = i.stateClobbered := by
  unfold runHandler
  by_cases ha : a = "call"
  · simp only [ha, if_pos rfl]
    cases lookupA i.methods t with
    | none => rfl
    | some m =>
      cases v with
      | arr args =>
        rcases hm : m i.fields args with ⟨res, fs⟩
        cases res with
        | error e => simp [hm]
        | ok o =>
          cases o with
          | none => simp [hm]
          | some cr => cases cr <;> simp [hm]
      | undef => rfl
      | null => rfl
      | bool b => rfl
      | num n => rfl
      | str s => rfl
      | date iso => rfl
  · by_cases hs : a = "set"
    · have ht : ¬ t = "state" := fun hq => h ⟨hs, hq⟩
      simp [ha, hs, ht]
    · by_cases hg : a = "get-prop" <;> simp [ha, hs, hg]

theorem dispatchRoute_stateClobbered (b : Bool) (i : Inst) (ro : Option (String × String))
    (v : Value) (h : ro ≠ some ("set", "state")) :
    ((dispatchRoute b i ro v).2).stateClobbered = i.stateClobbered := by
  cases ro with
  | none => rfl
  | some at2 =>
    rcases at2 with ⟨ax, ay⟩
    have hne : ¬(ax = "set" ∧ ay = "state") := by
      rintro ⟨h1, h2⟩
      exact h (by rw [h1, h2])
    unfold dispatchRoute
    rcases hr : runHandler i ax ay v with ⟨res, j⟩
    have hj : j.stateClobbered = i.stateClobbered := by
      have hrs := runHandler_stateClobbered i ax ay v hne
      rw [hr] at hrs
      exact hrs
    cases res with
    | error e => simpa [hr] using hj
    | ok o =>
      cases o with
      | some r => simpa [hr] using hj
      | none =>
        cases hop : optionallyReturnThis b j with
        | some r => simpa [hr, hop] using hj
        | none => simpa [hr, hop] using hj

theorem dispatchRoute_route_some (b : Bool) (i : Inst) (at2 : String × String) (v : Value) :
    ∃ r j, dispatchRoute b i (some at2) v = (some r, j) := by
  rcases hr : runHandler i at2.1 at2.2 v with ⟨res, j⟩
  cases res with
  | error e => exact ⟨onErrorDefault e, j, by simp [dispatchRoute, hr]⟩
  | ok o =>
    cases o with
    | some r => exact ⟨r, j, by simp [dispatchRoute, hr]⟩
    | none =>
      cases hop : optionallyReturnThis b j with
      | some r => exact ⟨r, j, by simp [dispatchRoute, hr, hop]⟩
      | none => exact ⟨status204, j, by simp [dispatchRoute, hr, hop]⟩

theorem fetch_intact (cfg : Options) (c : Codec) (i : Inst) (store : Store) (req : Request)
    (hclob : i.stateClobbered = none) :
    fetch cfg c i store req =
      finishFetch cfg c store
        (loadFromStorage c cfg.pfx { i with state := contextState i req } store).2
        (fetchDispatch cfg c i store req) := by
  unfold fetch
  rw [hclob]

theorem fetch_clobbered (cfg : Options) (c : Codec) (i : Inst) (store : Store)
    (req : Request) (v : Value) (hclob : i.stateClobbered = some v) :
    fetch cfg c i store req =
      { result := .ok (errorResp 400 "TypeError")
        inst := i
        store := store
        ops := []
        usedFallback := false } := by
  unfold fetch
  rw [hclob]

/-! Concrete fixtures shared by witnesses and counterexamples. -/

/-- A concrete instantiation of the external codec, used to evaluate
theorems on closed inputs: it tags strings and dates and round-trips
both (dates being the representative values plain JSON cannot keep). -/
def codecDemo : Codec :=
  { stringify := fun v => match v with
      | .str s => "s:" ++ s
      | .date iso => "d:" ++ iso
      | _ => ""
    parse := fun s =>
      if jsStartsWith s "s:" then .str (jsSliceFrom s 2)
      else if jsStartsWith s "d:" then .date (jsSliceFrom s 2)
      else .null }

/-- Factory defaults: `createDurable({})`. -/
def cfgDefault : Options := { autoPersist := false, autoReturn := false, pfx := "_itty:" }

/-- `createDurable({ autoPersist: true })`. -/
def cfgPersist : Options := { autoPersist := true, autoReturn := false, pfx := "_itty:" }

/-- An internal state that already went through its first load. -/
def demoLoadedState : InternalState :=
  { defaultState := some [("env", .null), ("classInstance", .null)]
    initialized := true
    idFromName := none
    websocketRequest := false
    request := none }

/-- An instance past its first request, with one business field and no
subclass methods. -/
def demoInst : Inst :=
  { fields := [("env", .null), ("classInstance", .null), ("count", .str "zero")]
    state := demoLoadedState
    methods := []
    fetchFallback := none
    stateClobbered := none }

/-- A request whose `call` target names no function on `demoInst`. -/
def reqCallMissing : Request :=
  { route := some ("call", "missing"), doContent := none, doName := none, upgrade := none }

/-- A request whose URL does not match `GET /do/:action/:target` (for
example the out-of-band trigger of an alarm). -/
def reqNoRoute : Request :=
  { route := none, doContent := none, doName := none, upgrade := none }

/-- A callback for the wake-up handler that throws. -/
def cbBoom : AList Value → (Except JsErr Unit) × AList Value :=
  fun fs => (.error { status := none, message := "boom" }, fs)

/-! Claim C9. -/

/-- Claim C9, counterexample: with no shape class supplied, reading the
reserved transport name `fetch` on the proxy handle is not excluded from
translation — the `get` trap immediately issues a `get-prop` action
request targeting `fetch` (the `isValidMethod` guard only stops the
method-call interpretation, after which the data-field branch fires). -/
theorem c9_counterexample :
    proxyGet none none "fetch" =
      .issued { action := "get-prop", target := "fetch", doContent := none, doName := none } := rfl

/-- Claim C9 (amended): reading `fetch` on the proxy handle is never
treated as a callable method — no `call` request and no callable stub is
produced for it — but it is translated into an immediately issued
`get-prop` action request for the property `fetch`, for every shape class
and lookup name. -/
theorem c9_fetch_not_intercepted_as_method (mock : Option (String → Bool))
    (dn : Option String) :
    proxyGet mock dn "fetch" = .issued (buildRequest dn "get-prop" "fetch" none) := by
  have hv : isValidMethod mock "fetch" = false := by
    cases mock <;> simp [isValidMethod]
  simp [proxyGet, hv]

/-! Claim C8. -/

/-- Claim C8, counterexample: a callback that throws during the guarded
wake-up sequence is not logged — the transaction promise is not awaited,
so the catch (and its logging) never observes the error, which surfaces
as an unhandled rejection instead. -/
theorem c8_counterexample :
    (safeAlarm cfgDefault codecDemo (some cbBoom) demoInst []).logged = []
    ∧ (safeAlarm cfgDefault codecDemo (some cbBoom) demoInst []).unhandled =
        some { status := none, message := "boom" } := ⟨rfl, rfl⟩

/-- Claim C8 (amended): `safeAlarm` never propagates an exception to its
caller — the caller always observes a normal return — but an error raised
during the transactional sequence is not logged by the catch (the
un-awaited transaction promise carries it away as an unhandled
rejection). -/
theorem c8_safeAlarm_never_propagates (cfg : Options) (c : Codec)
    (cb : Option (AList Value → (Except JsErr Unit) × AList Value))
    (i : Inst) (store : Store) :
    (safeAlarm cfg c cb i store).result = .ok ()
    ∧ (safeAlarm cfg c cb i store).logged = [] := by
  unfold safeAlarm
  cases cb with
  | none => simp
  | some f =>
    rcases hf : f (loadFromStorage c cfg.pfx i store).1.fields with ⟨r, fs⟩
    cases r with
    | error e => simp [hf]
    | ok u => simp [hf]

/-! Claim C2. -/

/-- Claim C2: on an instance whose internal namespace is intact, an
inbound `call` whose target names no function on the instance makes the
route handler throw the 500 `StatusError` naming the target; the
router-level catch maps it through the default `onError` to a 500
response carrying that message, which `fetch` returns.  The call never
produces a success response. -/
theorem c2_call_method_not_found (cfg : Options) (c : Codec) (i : Inst) (store : Store)
    (req : Request) (target : String)
    (hclob : i.stateClobbered = none)
    (hr : req.route = some ("call", target))
    (hm : lookupA i.methods target = none) :
    (fetch cfg c i store req).result =
      .ok (errorResp 500 ("Durable Object does not contain method " ++ target ++ "()")) := by
  have hm2 : lookupA
      (loadFromStorage c cfg.pfx { i with state := contextState i req } store).1.methods
      target = none := by
    rw [loadFromStorage_methods]
    exact hm
  have hclob2 : (loadFromStorage c cfg.pfx
      { i with state := contextState i req } store).1.stateClobbered = none := by
    rw [loadFromStorage_stateClobbered]
    exact hclob
  have hdisp : fetchDispatch cfg c i store req =
      (some (errorResp 500 ("Durable Object does not contain method " ++ target ++ "()")),
       (loadFromStorage c cfg.pfx { i with state := contextState i req } store).1) := by
    unfold fetchDispatch
    rw [hr]
    have hrh : runHandler
        (loadFromStorage c cfg.pfx { i with state := contextState i req } store).1
        "call" target ((req.doContent).getD (.arr [])) =
        (.error { status := some 500
                  message := "Durable Object does not contain method " ++ target ++ "()" },
         (loadFromStorage c cfg.pfx { i with state := contextState i req } store).1) := by
      unfold runHandler
      rw [if_pos rfl, hm2]
    simp only [dispatchRoute]
    rw [hrh]
    rfl
  unfold fetch
  rw [hclob, hdisp, finishFetch_some_intact _ _ _ _ _ _ hclob2]

/-- Claim C2, witness: the theorem evaluated on `demoInst` (no subclass
methods) and a `call` request targeting `missing`. -/
theorem c2_witness :
    (fetch cfgDefault codecDemo demoInst [] reqCallMissing).result =
      .ok (errorResp 500 ("Durable Object does not contain method " ++ "missing" ++ "()")) :=
  c2_call_method_not_found cfgDefault codecDemo demoInst [] reqCallMissing "missing" rfl rfl rfl

/-! Lemmas about the write fold of `persist`. -/

theorem foldl_setA_lookup_notin {α : Type} (ws store : AList α) (key : String)
    (h : key ∉ keysA ws) :
    lookupA (ws.foldl (fun st kv => setA st kv.1 kv.2) store) key = lookupA store key := by
  induction ws generalizing store with
  | nil => rfl
  | cons kv rest ih =>
    rw [keysA_cons] at h
    have h1 : ¬ kv.1 = key := fun hq => h (by rw [hq]; exact List.mem_cons_self _ _)
    have h2 : key ∉ keysA rest := fun hq => h (List.mem_cons_of_mem _ hq)
    have hfold : (kv :: rest).foldl (fun st q => setA st q.1 q.2) store
        = rest.foldl (fun st q => setA st q.1 q.2) (setA store kv.1 kv.2) := rfl
    rw [hfold, ih _ h2, lookupA_setA]
    simp [h1]

theorem foldl_setA_lookup_mem {α : Type} (ws : AList α) (k : String) (v : α)
    (hmem : (k, v) ∈ ws) (hnd : (keysA ws).Nodup) (store : AList α) :
    lookupA (ws.foldl (fun st kv => setA st kv.1 kv.2) store) k = some v := by
  induction ws generalizing store with
  | nil => cases hmem
  | cons kv rest ih =>
    rw [keysA_cons, List.nodup_cons] at hnd
    have hfold : (kv :: rest).foldl (fun st q => setA st q.1 q.2) store
        = rest.foldl (fun st q => setA st q.1 q.2) (setA store kv.1 kv.2) := rfl
    rw [hfold]
    rcases List.mem_cons.mp hmem with heq | hmem2
    · have hk : kv.1 = k := by rw [← heq]
      have hnotin : k ∉ keysA rest := by rw [← hk]; exact hnd.1
      rw [foldl_setA_lookup_notin rest _ k hnotin, lookupA_setA, ← heq]
      simp
    · exact ih hmem2 hnd.2 _

/-! Claim C10. -/

/-- Claim C10: `getPersistable` keeps every own field except the reserved
`state` slot, so the `env` and `classInstance` fields set by the base
constructor are part of the persistable state (their names carry no `$`
sentinel), are written by `persist` to their own prefixed store keys, and
appear in `toJSON()` and hence in the `autoReturn` response. -/
theorem c10_env_classInstance_persisted (c : Codec) (pfx : String) (envVal : Value)
    (ms : AList MethodImpl) (fb : Option (Unit → Except JsErr Response)) (store : Store) :
    lookupA (getPersistable (construct envVal [] ms fb)) "env" = some envVal
    ∧ lookupA (getPersistable (construct envVal [] ms fb)) "classInstance" = some .null
    ∧ (persist c pfx (construct envVal [] ms fb) store).2 =
        [.put (pfx ++ "env") (c.stringify envVal),
         .put (pfx ++ "classInstance") (c.stringify .null)]
    ∧ lookupA (toJSON (construct envVal [] ms fb)) "env" = some envVal
    ∧ lookupA (toJSON (construct envVal [] ms fb)) "classInstance" = some .null
    ∧ optionallyReturnThis true (construct envVal [] ms fb) =
        some { status := 200, error := none
               body := some (.fieldsObj (toJSON (construct envVal [] ms fb))) }
    ∧ (∀ (j : Inst) (k : String), k ≠ "state" →
        lookupA (getPersistable j) k = lookupA j.fields k)
    ∧ (∀ j : Inst, lookupA (getPersistable j) "state" = none) := by
  refine ⟨rfl, rfl, rfl, rfl, rfl, rfl, ?_, ?_⟩
  · intro j k hk
    unfold getPersistable
    rw [lookupA_filter_ne]
    simp [hk]
  · intro j
    unfold getPersistable
    rw [lookupA_filter_ne]
    simp

/-- Claim C10, witness: the theorem evaluated at a concrete environment
value and at `demoInst`. -/
theorem c10_witness :
    lookupA (getPersistable (construct .null [] [] none)) "env" = some .null
    ∧ lookupA (getPersistable demoInst) "count" = lookupA demoInst.fields "count" :=
  ⟨(c10_env_classInstance_persisted codecDemo "_itty:" .null [] none []).1,
   (c10_env_classInstance_persisted codecDemo "_itty:" .null [] none []).2.2.2.2.2.2.1
     demoInst "count" (by decide)⟩

/-! Claim C6. -/

/-- A request `GET /do/set/state`: a `set` action whose target is the
reserved internal namespace name. -/
def reqSetState : Request :=
  { route := some ("set", "state"), doContent := some .null, doName := none, upgrade := none }

/-- Claim C6, counterexample: the `initialized` flag is not permanently
true for the lifetime of the in-memory instance — the reachable request
`GET /do/set/state` executes `this.state = content`, overwriting the
internal namespace, after which reading `this.state.initialized` on the
same instance no longer yields true. -/
theorem c6_counterexample :
    readInitialized demoInst = true
    ∧ readInitialized (fetch cfgDefault codecDemo demoInst [] reqSetState).inst = false :=
  ⟨rfl, rfl⟩

/-- Claim C6 (amended): `initialized` is false at construction and set by
the first load; on an instance whose namespace is intact, a repeated load
is the identity with no store operation, and it stays true across every
request except a `set` action targeting the reserved name `state` — that
request overwrites the namespace and the flag reads as `undefined` from
then on; `reset` and `safeAlarm` preserve it. -/
theorem c6_initialized_until_state_overwrite :
    (∀ (envVal : Value) (extra : AList Value) (ms : AList MethodImpl)
        (fb : Option (Unit → Except JsErr Response)),
      readInitialized (construct envVal extra ms fb) = false)
    ∧ (∀ (c : Codec) (pfx : String) (i : Inst) (store : Store),
        (loadFromStorage c pfx i store).1.state.initialized = true)
    ∧ (∀ (c : Codec) (pfx : String) (i : Inst) (store : Store),
        i.state.initialized = true → loadFromStorage c pfx i store = (i, []))
    ∧ (∀ (cfg : Options) (c : Codec) (i : Inst) (store : Store) (req : Request),
        i.stateClobbered = none → req.route ≠ some ("set", "state") →
        readInitialized (fetch cfg c i store req).inst = true)
    ∧ (∀ (i : Inst) (store : Store) (j : Inst),
        (reset i store).1 = .ok j →
        j.state.initialized = i.state.initialized ∧ j.stateClobbered = i.stateClobbered)
    ∧ (∀ (cfg : Options) (c : Codec)
        (cb : Option (AList Value → (Except JsErr Unit) × AList Value))
        (i : Inst) (store : Store), i.stateClobbered = none →
        readInitialized (safeAlarm cfg c cb i store).inst = true) := by
  refine ⟨fun _ _ _ _ => rfl, loadFromStorage_initialized, ?_, ?_, ?_, ?_⟩
  · intro c pfx i store h
    simp [loadFromStorage, h]
  · intro cfg c i store req hclob hroute
    have hcl2 : ((dispatchRoute cfg.autoReturn
        (loadFromStorage c cfg.pfx { i with state := contextState i req } store).1
        req.route (req.doContent.getD (.arr []))).2).stateClobbered = none := by
      rw [dispatchRoute_stateClobbered _ _ _ _ hroute, loadFromStorage_stateClobbered]
      exact hclob
    have hini : ((dispatchRoute cfg.autoReturn
        (loadFromStorage c cfg.pfx { i with state := contextState i req } store).1
        req.route (req.doContent.getD (.arr []))).2).state.initialized = true := by
      rw [dispatchRoute_state, loadFromStorage_initialized]
    rw [fetch_intact cfg c i store req hclob, finishFetch_inst]
    unfold fetchDispatch readInitialized
    rw [hcl2]
    exact hini
  · intro i store j h
    unfold reset at h
    cases hcl : i.stateClobbered with
    | some v =>
      rw [hcl] at h
      cases h
    | none =>
      rw [hcl] at h
      cases hd : i.state.defaultState with
      | none =>
        rw [hd] at h
        cases h
      | some snap =>
        rw [hd] at h
        simp only [Except.ok.injEq] at h
        rw [← h]
        exact ⟨rfl, rfl⟩
  · intro cfg c cb i store hclob
    have hini : (safeAlarm cfg c cb i store).inst.state.initialized = true := by
      unfold safeAlarm
      cases cb with
      | none => simp [loadFromStorage_initialized]
      | some f =>
        rcases hf : f (loadFromStorage c cfg.pfx i store).1.fields with ⟨r, fs⟩
        cases r with
        | error e => simp [hf, loadFromStorage_initialized]
        | ok u => simp [hf, loadFromStorage_initialized]
    have hcl : (safeAlarm cfg c cb i store).inst.stateClobbered = none := by
      unfold safeAlarm
      cases cb with
      | none => simp [loadFromStorage_stateClobbered, hclob]
      | some f =>
        rcases hf : f (loadFromStorage c cfg.pfx i store).1.fields with ⟨r, fs⟩
        cases r with
        | error e => simp [hf, loadFromStorage_stateClobbered, hclob]
        | ok u => simp [hf, loadFromStorage_stateClobbered, hclob]
    unfold readInitialized
    rw [hcl]
    exact hini

/-- Claim C6, witness: the amended theorem evaluated on `demoInst`: a
second load is the identity reading nothing, and after an ordinary
request the flag still reads true. -/
theorem c6_witness :
    loadFromStorage codecDemo "_itty:" demoInst [] = (demoInst, [])
    ∧ readInitialized (fetch cfgDefault codecDemo demoInst [] reqNoRoute).inst = true :=
  ⟨c6_initialized_until_state_overwrite.2.2.1 codecDemo "_itty:" demoInst [] rfl,
   c6_initialized_until_state_overwrite.2.2.2.1 cfgDefault codecDemo demoInst [] reqNoRoute
     rfl (by decide)⟩

/-! Claim C7. -/

/-- Claim C7: `persist` issues exactly one `put` per persistable field
that does not carry the `$` sentinel, keyed `<prefix><fieldName>` with
the codec-encoded value; it never writes a key for a sentinel-prefixed
field; and every store key other than the written ones keeps its prior
value.  (The instance itself is untouched by construction: `persist`
returns only a new store and its write log.) -/
theorem c7_persist_exact_writes (c : Codec) (pfx : String) (i : Inst) (store : Store)
    (hnd : (keysA (getPersistable i)).Nodup) :
    ((persist c pfx i store).2 =
        ((getPersistable i).filter fun kv => !(jsStartsWith kv.1 "$")).map
          fun kv => StoreOp.put (pfx ++ kv.1) (c.stringify kv.2))
    ∧ (∀ kv ∈ getPersistable i, jsStartsWith kv.1 "$" = false →
        lookupA (persist c pfx i store).1 (pfx ++ kv.1) = some (c.stringify kv.2))
    ∧ (∀ kv ∈ getPersistable i, jsStartsWith kv.1 "$" = true →
        ∀ s, StoreOp.put (pfx ++ kv.1) s ∉ (persist c pfx i store).2)
    ∧ (∀ key : String, (∀ kv ∈ getPersistable i, key ≠ pfx ++ kv.1) →
        lookupA (persist c pfx i store).1 key = lookupA store key) := by
  have hws : persistWrites c pfx (getPersistable i) =
      ((getPersistable i).filter fun kv => !(jsStartsWith kv.1 "$")).map
        fun kv => (pfx ++ kv.1, c.stringify kv.2) := persistWrites_eq c pfx (getPersistable i)
  have hkeys : keysA (persistWrites c pfx (getPersistable i)) =
      (((getPersistable i).filter fun kv => !(jsStartsWith kv.1 "$")).map
        fun kv => pfx ++ kv.1) := by
    rw [hws]
    simp [keysA, List.map_map, Function.comp]
  have hndf : ((getPersistable i).filter fun kv => !(jsStartsWith kv.1 "$")).map
      (fun kv => pfx ++ kv.1) |>.Nodup := by
    have hsub : (((getPersistable i).filter fun kv => !(jsStartsWith kv.1 "$")).map Prod.fst).Sublist
        ((getPersistable i).map Prod.fst) :=
      ((getPersistable i).filter_sublist).map Prod.fst
    have hndkeys : (((getPersistable i).filter fun kv => !(jsStartsWith kv.1 "$")).map Prod.fst).Nodup :=
      hnd.sublist hsub
    have hinj : Function.Injective (fun s : String => pfx ++ s) :=
      fun a b h => strAppend_left_cancel h
    have := hndkeys.map hinj
    simpa [List.map_map, Function.comp] using this
  have hndws : (keysA (persistWrites c pfx (getPersistable i))).Nodup := by
    rw [hkeys]
    exact hndf
  refine ⟨?_, ?_, ?_, ?_⟩
  · show (persistWrites c pfx (getPersistable i)).map (fun kv => StoreOp.put kv.1 kv.2) = _
    rw [hws]
    simp [List.map_map, Function.comp]
  · intro kv hkv hdollar
    show lookupA ((persistWrites c pfx (getPersistable i)).foldl
        (fun st q => setA st q.1 q.2) store) (pfx ++ kv.1) = some (c.stringify kv.2)
    refine foldl_setA_lookup_mem _ _ _ ?_ hndws store
    rw [hws]
    refine List.mem_map.mpr ⟨kv, ?_, rfl⟩
    refine List.mem_filter.mpr ⟨hkv, by simp [hdollar]⟩
  · intro kv hkv hdollar s hmem
    show False
    have hops : (persist c pfx i store).2 =
        (persistWrites c pfx (getPersistable i)).map (fun q => StoreOp.put q.1 q.2) := rfl
    rw [hops, hws, List.map_map, List.mem_map] at hmem
    rcases hmem with ⟨q, hq, heq⟩
    have hq2 := List.mem_filter.mp hq
    simp only [Function.comp] at heq
    have hkeyeq : pfx ++ q.1 = pfx ++ kv.1 := by
      injection heq with h1 h2
    have hq1 : q.1 = kv.1 := strAppend_left_cancel hkeyeq
    have : jsStartsWith q.1 "$" = false := by
      have hb := hq2.2
      simp at hb
      exact hb
    rw [hq1, hdollar] at this
    cases this
  · intro key hkey
    show lookupA ((persistWrites c pfx (getPersistable i)).foldl
        (fun st q => setA st q.1 q.2) store) key = lookupA store key
    refine foldl_setA_lookup_notin _ _ _ ?_
    rw [hkeys]
    intro hmem
    rcases List.mem_map.mp hmem with ⟨q, hq, heq⟩
    exact hkey q (List.mem_filter.mp hq).1 heq.symm

/-- Claim C7, witness: `persist` on `demoInst` makes the encoded `count`
field readable at its prefixed key. -/
theorem c7_witness :
    lookupA (persist codecDemo "_itty:" demoInst []).1 ("_itty:" ++ "count") =
      some (codecDemo.stringify (.str "zero")) :=
  (c7_persist_exact_writes codecDemo "_itty:" demoInst [] (by decide)).2.1
    ("count", .str "zero")
    (List.mem_cons_of_mem _ (List.mem_cons_of_mem _ (List.mem_cons_self _ _)))
    rfl

/-! Claim C3. -/

/-- A fallback handler resolving to an empty success response. -/
def fbOk : Unit → Except JsErr Response := fun _ => .ok status204

/-- An initialized instance carrying a business field and a fallback
handler. -/
def demoFbInst : Inst :=
  { fields := [("env", .null), ("classInstance", .null), ("count", .str "one")]
    state := demoLoadedState
    methods := []
    fetchFallback := some fbOk
    stateClobbered := none }

/-- Claim C3, counterexample: with `autoPersist` enabled, a request the
router does not answer that is handled by the fallback returns without
persisting — the store stays empty although persisting the final field
state would have written keys.  The `return this.fetchFallback()` line
runs before the auto-persist step. -/
theorem c3_counterexample :
    (fetch cfgPersist codecDemo demoFbInst [] reqNoRoute).usedFallback = true
    ∧ (fetch cfgPersist codecDemo demoFbInst [] reqNoRoute).store = []
    ∧ (persist codecDemo cfgPersist.pfx
        (fetch cfgPersist codecDemo demoFbInst [] reqNoRoute).inst []).1 ≠ [] := by
  refine ⟨rfl, rfl, ?_⟩
  decide

/-- Claim C3 (amended): with `autoPersist` enabled the wrapper persists
the full persistable field state before returning on every request except
two: requests answered by the fallback handler (the fallback result is
returned before the auto-persist step) and requests whose `set` action
overwrote the reserved `state` namespace (the persist call then
dereferences `this.state.storage` on the raw content, throws, and a 400
is returned with nothing written); on both exceptional paths the store is
left untouched. -/
theorem c3_autopersist_except_fallback_or_state_overwrite (cfg : Options) (c : Codec)
    (i : Inst) (store : Store) (req : Request)
    (hap : cfg.autoPersist = true) :
    ((fetch cfg c i store req).usedFallback = false →
      (fetch cfg c i store req).inst.stateClobbered = none →
      (fetch cfg c i store req).store =
        (persist c cfg.pfx (fetch cfg c i store req).inst store).1)
    ∧ ((fetch cfg c i store req).usedFallback = true →
      (fetch cfg c i store req).store = store)
    ∧ ((fetch cfg c i store req).inst.stateClobbered ≠ none →
      (fetch cfg c i store req).store = store) := by
  cases hcl : i.stateClobbered with
  | some v =>
    rw [fetch_clobbered cfg c i store req v hcl]
    refine ⟨?_, ?_, ?_⟩
    · intro _ h2
      have h3 : i.stateClobbered = none := h2
      rw [hcl] at h3
      cases h3
    · intro h
      cases h
    · intro _
      rfl
  | none =>
    rw [fetch_intact cfg c i store req hcl]
    rcases hd : fetchDispatch cfg c i store req with ⟨ro, j⟩
    cases ro with
    | some r =>
      cases hjc : j.stateClobbered with
      | none =>
        rw [finishFetch_some_intact cfg c store _ r j hjc]
        refine ⟨?_, ?_, ?_⟩
        · intro _ _
          simp [hap]
        · intro h
          cases h
        · intro h
          exact absurd hjc h
      | some v =>
        rw [finishFetch_some_clobbered cfg c store _ r j v hjc hap]
        refine ⟨?_, ?_, ?_⟩
        · intro _ h2
          have h3 : j.stateClobbered = none := h2
          rw [hjc] at h3
          cases h3
        · intro h
          cases h
        · intro _
          rfl
    | none =>
      cases hf : j.fetchFallback with
      | some fb =>
        rw [finishFetch_none_fb cfg c store _ j fb hf]
        refine ⟨?_, ?_, ?_⟩
        · intro h
          cases h
        · intro _
          rfl
        · intro _
          rfl
      | none =>
        cases hjc : j.stateClobbered with
        | none =>
          rw [finishFetch_none_nofb_intact cfg c store _ j hf hjc]
          refine ⟨?_, ?_, ?_⟩
          · intro _ _
            simp [hap]
          · intro h
            cases h
          · intro h
            exact absurd hjc h
        | some v =>
          have heq : finishFetch cfg c store
              (loadFromStorage c cfg.pfx { i with state := contextState i req } store).2
              (none, j) =
              { result := .ok (errorResp 400 "TypeError")
                inst := j
                store := store
                ops := (loadFromStorage c cfg.pfx
                  { i with state := contextState i req } store).2
                usedFallback := false } := by
            simp [finishFetch, hf, hjc, hap]
          rw [heq]
          refine ⟨?_, ?_, ?_⟩
          · intro _ h2
            have h3 : j.stateClobbered = none := h2
            rw [hjc] at h3
            cases h3
          · intro h
            cases h
          · intro _
            rfl

/-- Claim C3, witness: on a non-fallback, namespace-preserving request
(`demoInst` has no fallback) with `autoPersist` on, the store after
`fetch` is exactly the persist of the final instance state. -/
theorem c3_witness :
    (fetch cfgPersist codecDemo demoInst [] reqNoRoute).store =
      (persist codecDemo cfgPersist.pfx
        (fetch cfgPersist codecDemo demoInst [] reqNoRoute).inst []).1 :=
  (c3_autopersist_except_fallback_or_state_overwrite cfgPersist codecDemo demoInst []
      reqNoRoute rfl).1 rfl rfl

/-! Claim C5. -/

/-- A fallback handler whose promise rejects. -/
def fbFail : Unit → Except JsErr Response :=
  fun _ => .error { status := none, message := "fallback failed" }

/-- An initialized instance whose fallback handler rejects. -/
def demoFailInst : Inst :=
  { fields := [("env", .null), ("classInstance", .null)]
    state := demoLoadedState
    methods := []
    fetchFallback := some fbFail
    stateClobbered := none }

/-- Claim C5, counterexample: `fetch` does let an exception escape — when
the router produces no response and the fallback handler rejects, the
rejection is the settled outcome of `fetch` (the fallback promise is
returned from inside the try block without `await`, so the outer catch
never sees it), instead of any 400-class response. -/
theorem c5_counterexample :
    (fetch cfgDefault codecDemo demoFailInst [] reqNoRoute).result =
      .error { status := none, message := "fallback failed" } := rfl

/-- Claim C5 (amended): the lifecycle wrapper is total — it returns a
response — in every case but one: a rejection can only escape when the
router produced no response and the instance fallback handler itself
rejects, in which case that exact rejection is what escapes.  (Errors in
the routing stage are translated by the router-level `onError` catch, the
remaining throws by the outer catch into a 400 response.) -/
theorem c5_fetch_total_except_fallback (cfg : Options) (c : Codec) (i : Inst)
    (store : Store) (req : Request) (e : JsErr)
    (h : (fetch cfg c i store req).result = .error e) :
    ∃ fb, i.fetchFallback = some fb ∧ fb () = .error e := by
  cases hcl : i.stateClobbered with
  | some v =>
    rw [fetch_clobbered cfg c i store req v hcl] at h
    cases h
  | none =>
    rw [fetch_intact cfg c i store req hcl] at h
    rcases hd : fetchDispatch cfg c i store req with ⟨ro, j⟩
    rw [hd] at h
    have hj : j.fetchFallback = i.fetchFallback := by
      have hsnd : (fetchDispatch cfg c i store req).2 = j := by rw [hd]
      rw [← hsnd]
      unfold fetchDispatch
      rw [dispatchRoute_fetchFallback, loadFromStorage_fetchFallback]
    cases ro with
    | some r =>
      rcases finishFetch_some_result cfg c store
        (loadFromStorage c cfg.pfx { i with state := contextState i req } store).2 r j
        with ⟨r2, hr2⟩
      rw [hr2] at h
      cases h
    | none =>
      cases hf : j.fetchFallback with
      | none =>
        rcases finishFetch_none_nofb_result cfg c store
          (loadFromStorage c cfg.pfx { i with state := contextState i req } store).2 j hf
          with ⟨r2, hr2⟩
        rw [hr2] at h
        cases h
      | some fb =>
        rw [finishFetch_none_fb cfg c store _ j fb hf] at h
        rw [hj] at hf
        exact ⟨fb, hf, h⟩

/-- Claim C5, witness: the amended theorem applied to the rejecting
fallback instance pinpoints the escaping rejection. -/
theorem c5_witness :
    ∃ fb, demoFailInst.fetchFallback = some fb
      ∧ fb () = .error { status := none, message := "fallback failed" } :=
  c5_fetch_total_except_fallback cfgDefault codecDemo demoFailInst [] reqNoRoute
    { status := none, message := "fallback failed" } rfl

/-! Claim C4. -/

theorem jsonRoundTripFields_eq_self (fs : AList Value)
    (h : ∀ kv ∈ fs, jsonRoundTripValue kv.2 = kv.2 ∧ kv.2 ≠ .undef) :
    jsonRoundTripFields fs = fs := by
  induction fs with
  | nil => rfl
  | cons kv rest ih =>
    have hkv := h kv (List.mem_cons_self _ _)
    have hrest : jsonRoundTripFields rest = rest :=
      ih fun q hq => h q (List.mem_cons_of_mem _ hq)
    have hkeep : (match kv.2 with | Value.undef => false | _ => true) = true := by
      cases hv : kv.2
      · exact absurd hv hkv.2
      all_goals rfl
    unfold jsonRoundTripFields
    rw [List.filter_cons]
    simp only [hkeep, if_true, List.map_cons, hkv.1]
    unfold jsonRoundTripFields at hrest
    rw [hrest]

theorem loadFromStorage_defaultState (c : Codec) (pfx : String) (i : Inst) (store : Store) :
    (loadFromStorage c pfx i store).1.state.defaultState = i.state.defaultState := by
  by_cases h : i.state.initialized <;> simp [loadFromStorage, h]

theorem contextState_defaultState_fresh (i : Inst) (req : Request)
    (h : i.state.initialized = false) :
    (contextState i req).defaultState = some (getPersistable i) := by
  simp [contextState, h]

/-- A fresh instance (first request not yet handled) whose subclass
constructor set a `Date`-valued field — a value superjson keeps but plain
JSON collapses to its ISO string. -/
def demoDateInst : Inst :=
  construct .null [("d", .date "1970-01-01T00:00:00.000Z")] [] none

/-- The same in-memory instance after its first handled request (which
captured the default-state snapshot through `JSON.stringify`). -/
def demoAfterFirst : Inst :=
  (fetch cfgDefault codecDemo demoDateInst [] reqNoRoute).inst

/-- Claim C4, counterexample: after the first request, `reset()` restores
the `Date` field as the ISO string — not the `Date` the constructor set —
because the snapshot is taken with plain `JSON.stringify`/`JSON.parse`
rather than the codec.  So reset does not restore the snapshot state for
all constructor-settable values. -/
theorem c4_counterexample :
    ((reset demoAfterFirst []).1.toOption.map fun j => lookupA j.fields "d") =
      some (some (.str "1970-01-01T00:00:00.000Z"))
    ∧ lookupA demoAfterFirst.fields "d" = some (.date "1970-01-01T00:00:00.000Z")
    ∧ Value.str "1970-01-01T00:00:00.000Z" ≠ Value.date "1970-01-01T00:00:00.000Z" := by
  refine ⟨rfl, rfl, ?_⟩
  intro h
  exact Value.noConfusion h

/-- Claim C4 (amended): on an intact instance the first request
snapshots the pre-load persistable fields into `defaultState` — unless
that first request is itself a `set` on the reserved name `state`, which
overwrites the namespace along with the just-captured snapshot; and for
snapshots whose values survive a plain JSON round trip (no `Date`-like
collapse, no `undefined` members), `reset()` — after arbitrarily many
field mutations — restores exactly the snapshot, while performing no
store operation at all. -/
theorem c4_reset_restores_json_surviving_snapshot :
    (∀ (cfg : Options) (c : Codec) (i0 : Inst) (store : Store) (req : Request),
      i0.stateClobbered = none → i0.state.initialized = false →
      req.route ≠ some ("set", "state") →
      readDefaultState (fetch cfg c i0 store req).inst = some (getPersistable i0))
    ∧ (∀ (i : Inst) (store : Store) (snap : AList Value),
        i.stateClobbered = none →
        i.state.defaultState = some snap →
        (∀ kv ∈ i.fields, kv.1 ≠ "state") →
        (keysA snap).Nodup →
        (∀ kv ∈ snap, jsonRoundTripValue kv.2 = kv.2 ∧ kv.2 ≠ .undef) →
        ∃ j, reset i store = (.ok j, store, [])
          ∧ ∀ k, lookupA j.fields k = lookupA snap k) := by
  constructor
  · intro cfg c i0 store req hclob hini hroute
    have hcl2 : ((dispatchRoute cfg.autoReturn
        (loadFromStorage c cfg.pfx { i0 with state := contextState i0 req } store).1
        req.route (req.doContent.getD (.arr []))).2).stateClobbered = none := by
      rw [dispatchRoute_stateClobbered _ _ _ _ hroute, loadFromStorage_stateClobbered]
      exact hclob
    have hds : ((dispatchRoute cfg.autoReturn
        (loadFromStorage c cfg.pfx { i0 with state := contextState i0 req } store).1
        req.route (req.doContent.getD (.arr []))).2).state.defaultState
        = some (getPersistable i0) := by
      rw [dispatchRoute_state, loadFromStorage_defaultState]
      exact contextState_defaultState_fresh i0 req hini
    rw [fetch_intact cfg c i0 store req hclob, finishFetch_inst]
    unfold fetchDispatch readDefaultState
    rw [hcl2]
    exact hds
  · intro i store snap hclob hd hns hnd hsurv
    have hpers : getPersistable i = i.fields := getPersistable_eq_self hns
    have hrem : (i.fields.filter fun kv =>
        !((getPersistable i).any fun p => p.1 == kv.1)) = [] := by
      rw [hpers]
      rw [List.filter_eq_nil_iff]
      intro kv hkv
      have hany : (i.fields.any fun p => p.1 == kv.1) = true :=
        List.any_eq_true.mpr ⟨kv, hkv, by simp⟩
      simp [hany]
    simp only [reset, hclob, hd]
    refine ⟨_, rfl, ?_⟩
    intro k
    show lookupA (assignA
      (i.fields.filter fun kv => !((getPersistable i).any fun p => p.1 == kv.1))
      (jsonRoundTripFields snap)) k = lookupA snap k
    rw [hrem, jsonRoundTripFields_eq_self snap hsurv, lookupA_assignA [] snap k hnd]
    cases hl : lookupA snap k <;> rfl

/-- Claim C4, witness: the amended theorem applied to `demoInst`, whose
namespace is intact and whose snapshot holds only JSON-surviving
values. -/
theorem c4_witness :
    ∃ j, reset demoInst [] = (.ok j, [], [])
      ∧ ∀ k, lookupA j.fields k =
          lookupA [("env", Value.null), ("classInstance", Value.null)] k :=
  c4_reset_restores_json_surviving_snapshot.2 demoInst []
    [("env", .null), ("classInstance", .null)] rfl rfl
    (by
      intro kv h
      simp only [demoInst, List.mem_cons, List.not_mem_nil, or_false] at h
      rcases h with h | h | h <;> (rw [h]; decide))
    (by decide)
    (by
      intro kv h
      simp only [List.mem_cons, List.not_mem_nil, or_false] at h
      rcases h with h | h <;>
        (rw [h]; exact ⟨rfl, fun hq => Value.noConfusion hq⟩))

/-! Claim C1. -/

theorem persistWrites_eq_of_noDollar (c : Codec) (pfx : String) (F : AList Value)
    (h : ∀ kv ∈ F, jsStartsWith kv.1 "$" = false) :
    persistWrites c pfx F = F.map fun kv => (pfx ++ kv.1, c.stringify kv.2) := by
  rw [persistWrites_eq]
  congr 1
  apply List.filter_eq_self.mpr
  intro kv hkv
  simp [h kv hkv]

theorem map_strip_decode (c : Codec) (pfx : String) (F : AList Value)
    (hrt : ∀ kv ∈ F, c.parse (c.stringify kv.2) = kv.2) :
    ((F.map fun kv => (pfx ++ kv.1, c.stringify kv.2)).map fun kv =>
        (if jsStartsWith kv.1 pfx then jsSliceFrom kv.1 (jsLength pfx) else kv.1,
         c.parse kv.2)) = F := by
  induction F with
  | nil => rfl
  | cons kv rest ih =>
    have hkv := hrt kv (List.mem_cons_self _ _)
    have hrest := ih fun q hq => hrt q (List.mem_cons_of_mem _ hq)
    simp only [List.map_cons, jsStartsWith_append, if_true, jsSliceFrom_append, hkv, hrest]

/-- Claim C1 (amended): persist-then-load round-trips the persistable
field state — for every field name of the pre-persist state the reloaded
fresh instance holds the identical value — provided the persistable
fields carry no `$` sentinel (those are skipped by persist) and no
reserved `state` name, number at most 100 (the load page limit), each
value round-trips the codec, the backing store holds no foreign keys
under the prefix, and the fresh instance starts uninitialized with its
constructor defaults among the persisted names. -/
theorem c1_roundtrip_amended (c : Codec) (pfx : String) (iA iB : Inst)
    (S0 : Store) (F F0 : AList Value)
    (hA : iA.fields = F)
    (hAnoSt : ∀ kv ∈ F, kv.1 ≠ "state")
    (hnd : (keysA F).Nodup)
    (hNoDollar : ∀ kv ∈ F, jsStartsWith kv.1 "$" = false)
    (hrt : ∀ kv ∈ F, RoundTrips c kv.2)
    (hLim : F.length ≤ 100)
    (hS0 : ∀ kv ∈ S0, jsStartsWith kv.1 pfx = false)
    (hB : iB.fields = F0)
    (hBinit : iB.state.initialized = false)
    (hF0 : ∀ kv ∈ F0, kv.1 ∈ keysA F) :
    ∀ k, lookupA (loadFromStorage c pfx iB (persist c pfx iA S0).1).1.fields k
        = lookupA F k := by
  intro k
  have hpersbl : getPersistable iA = F := by
    unfold getPersistable
    rw [hA]
    apply List.filter_eq_self.mpr
    intro kv hkv
    simpa using hAnoSt kv hkv
  have hws : persistWrites c pfx (getPersistable iA)
      = F.map fun kv => (pfx ++ kv.1, c.stringify kv.2) := by
    rw [hpersbl]
    exact persistWrites_eq_of_noDollar c pfx F hNoDollar
  have hwsKeys : keysA (F.map fun kv => (pfx ++ kv.1, c.stringify kv.2))
      = (keysA F).map fun s => pfx ++ s := by
    simp [keysA, List.map_map, Function.comp]
  have hndws : (keysA (F.map fun kv => (pfx ++ kv.1, c.stringify kv.2))).Nodup := by
    rw [hwsKeys]
    have hinj : Function.Injective fun s : String => pfx ++ s :=
      fun a b h => strAppend_left_cancel h
    exact hnd.map hinj
  have hfresh : ∀ kv ∈ (F.map fun kv => (pfx ++ kv.1, c.stringify kv.2)),
      kv.1 ∉ keysA S0 := by
    intro kv hkv hmem
    rcases List.mem_map.mp hmem with ⟨q, hq, hq1⟩
    rcases List.mem_map.mp hkv with ⟨f, hf, hf1⟩
    exact (ne_append_of_not_startsWith (hS0 q hq))
      (hq1.trans (congrArg Prod.fst hf1).symm)
  have hS1 : (persist c pfx iA S0).1
      = S0 ++ (F.map fun kv => (pfx ++ kv.1, c.stringify kv.2)) := by
    show (persistWrites c pfx (getPersistable iA)).foldl
        (fun st q => setA st q.1 q.2) S0 = _
    rw [hws]
    exact foldl_setA_fresh _ _ hfresh hndws
  have hfilter : ((S0 ++ (F.map fun kv => (pfx ++ kv.1, c.stringify kv.2))).filter
      fun kv => jsStartsWith kv.1 pfx)
      = F.map fun kv => (pfx ++ kv.1, c.stringify kv.2) := by
    rw [List.filter_append]
    have h1 : (S0.filter fun kv => jsStartsWith kv.1 pfx) = [] := by
      rw [List.filter_eq_nil_iff]
      intro kv hkv
      simp [hS0 kv hkv]
    have h2 : ((F.map fun kv => (pfx ++ kv.1, c.stringify kv.2)).filter
        fun kv => jsStartsWith kv.1 pfx)
        = F.map fun kv => (pfx ++ kv.1, c.stringify kv.2) := by
      apply List.filter_eq_self.mpr
      intro kv hkv
      rcases List.mem_map.mp hkv with ⟨f, hf, hf1⟩
      rw [← hf1]
      exact jsStartsWith_append pfx f.1
    rw [h1, h2]
    rfl
  have hsortlen : (sortByKey (F.map fun kv => (pfx ++ kv.1, c.stringify kv.2))).length ≤ 100 := by
    rw [(sortByKey_perm _).length_eq, List.length_map]
    exact hLim
  have hlist : storeList (persist c pfx iA S0).1 pfx 100
      = sortByKey (F.map fun kv => (pfx ++ kv.1, c.stringify kv.2)) := by
    unfold storeList
    rw [hS1, hfilter]
    exact List.take_of_length_le hsortlen
  have hdecoded : ((F.map fun kv => (pfx ++ kv.1, c.stringify kv.2)).map fun kv =>
      (if jsStartsWith kv.1 pfx then jsSliceFrom kv.1 (jsLength pfx) else kv.1,
       c.parse kv.2)) = F :=
    map_strip_decode c pfx F hrt
  have hperm : ((sortByKey (F.map fun kv => (pfx ++ kv.1, c.stringify kv.2))).map fun kv =>
      (if jsStartsWith kv.1 pfx then jsSliceFrom kv.1 (jsLength pfx) else kv.1,
       c.parse kv.2)).Perm F := by
    have hp := (sortByKey_perm (F.map fun kv => (pfx ++ kv.1, c.stringify kv.2))).map
      fun kv => (if jsStartsWith kv.1 pfx then jsSliceFrom kv.1 (jsLength pfx) else kv.1,
        c.parse kv.2)
    rw [hdecoded] at hp
    exact hp
  have hndso : (keysA ((sortByKey (F.map fun kv => (pfx ++ kv.1, c.stringify kv.2))).map fun kv =>
      (if jsStartsWith kv.1 pfx then jsSliceFrom kv.1 (jsLength pfx) else kv.1,
       c.parse kv.2))).Nodup :=
    ((hperm.map Prod.fst).nodup_iff).mpr hnd
  have hload : (loadFromStorage c pfx iB (persist c pfx iA S0).1).1.fields
      = assignA F0 ((sortByKey (F.map fun kv => (pfx ++ kv.1, c.stringify kv.2))).map fun kv =>
          (if jsStartsWith kv.1 pfx then jsSliceFrom kv.1 (jsLength pfx) else kv.1,
           c.parse kv.2)) := by
    simp only [loadFromStorage, hBinit, Bool.false_eq_true, if_false]
    rw [hB, hlist]
  rw [hload, lookupA_assignA _ _ k hndso, Perm.lookupA_eq hperm hndso k]
  cases hF : lookupA F k with
  | some v => rfl
  | none =>
    have hk : k ∉ keysA F := (lookupA_eq_none_iff F k).mp hF
    have hk0 : k ∉ keysA F0 := by
      intro hmem
      rcases List.mem_map.mp hmem with ⟨q, hq, hq1⟩
      exact hk (by rw [← hq1]; exact hF0 q hq)
    exact (lookupA_eq_none_iff F0 k).mpr hk0

/-- An initialized actor whose transient `$t` field was mutated away from
its constructor default before persisting. -/
def dollarMutInst : Inst :=
  { fields := [("env", .null), ("classInstance", .null), ("$t", .str "mutated")]
    state := demoLoadedState
    methods := []
    fetchFallback := none
    stateClobbered := none }

/-- The same actor freshly constructed in memory: `$t` holds the
constructor default and the instance is uninitialized. -/
def dollarFreshInst : Inst :=
  construct .null [("$t", .str "default")] [] none

/-- Claim C1, counterexample: a `$`-prefixed field value round-trips the
codec, yet persist-then-reload does not restore it — persist skips the
sentinel field, so the fresh instance keeps its constructor default
instead of the pre-persist value, breaking field-for-field equality with
the pre-persist field state. -/
theorem c1_counterexample :
    RoundTrips codecDemo (.str "mutated")
    ∧ lookupA (loadFromStorage codecDemo "_itty:" dollarFreshInst
        (persist codecDemo "_itty:" dollarMutInst []).1).1.fields "$t" =
        some (.str "default")
    ∧ lookupA dollarMutInst.fields "$t" = some (.str "mutated")
    ∧ Value.str "default" ≠ Value.str "mutated" := by
  refine ⟨rfl, rfl, rfl, ?_⟩
  intro h
  injection h with h2
  exact absurd h2 (by decide)

/-- A fresh in-memory copy of the `demoInst` actor, with a different
constructor default for `count`. -/
def c1FreshInst : Inst :=
  construct .null [("count", .str "init")] [] none

/-- Claim C1, witness: the amended theorem evaluated on `demoInst`: after
persisting, a fresh uninitialized instance loads the identical `count`. -/
theorem c1_witness :
    lookupA (loadFromStorage codecDemo "_itty:" c1FreshInst
        (persist codecDemo "_itty:" demoInst []).1).1.fields "count" =
      lookupA demoInst.fields "count" :=
  c1_roundtrip_amended codecDemo "_itty:" demoInst c1FreshInst []
    demoInst.fields c1FreshInst.fields rfl
    (by decide)
    (by decide)
    (by decide)
    (by
      intro kv h
      rcases List.mem_cons.mp h with h1 | h
      · rw [h1]; rfl
      rcases List.mem_cons.mp h with h1 | h
      · rw [h1]; rfl
      rcases List.mem_cons.mp h with h1 | h
      · rw [h1]; rfl
      · cases h)
    (by decide)
    (by intro kv h; cases h)
    rfl
    rfl
    (by decide)
    "count"

end IttyDurable
